import Mathlib

/-!
Verification development for the dynlint version-transition core:
version model, transition guard, build oracle with sanitized
environment, bisector, and manifest updater.

The repository sources available here are the integration tests
(`cargo-dynlint/tests/package_options.rs`) and an example lint; the core
components themselves are modelled from the specification, as noted on
each definition.
-/

/-- Modelled from the spec: `SemanticVersion` — (major, minor, patch)
non-negative integers, immutable once constructed. -/
structure Version where
  major : Nat
  minor : Nat
  patch : Nat
deriving DecidableEq

/-- Modelled from the spec: `compare` on versions, strict part, computed
componentwise (major, then minor, then patch). -/
def versionLt (a b : Version) : Bool :=
  Nat.blt a.major b.major ||
    (a.major == b.major &&
      (Nat.blt a.minor b.minor ||
        (a.minor == b.minor && Nat.blt a.patch b.patch)))

/-- Non-strict comparison derived from the strict one (total order). -/
def versionLe (a b : Version) : Bool :=
  !(versionLt b a)

/-- Modelled from the spec: `isDowngrade(requested, current) = requested < current`. -/
def isDowngrade (requested current : Version) : Bool :=
  versionLt requested current

/-- The specification's order on versions, stated abstractly: the
lexicographic order on the (major, minor, patch) triple. -/
def VersionLexLt (a b : Version) : Prop :=
  a.major < b.major ∨
    (a.major = b.major ∧
      (a.minor < b.minor ∨ (a.minor = b.minor ∧ a.patch < b.patch)))

instance (a b : Version) : Decidable (VersionLexLt a b) := by
  unfold VersionLexLt
  infer_instance

theorem versionLt_iff_lex (a b : Version) :
    versionLt a b = true ↔ VersionLexLt a b := by
  unfold versionLt VersionLexLt
  simp only [Bool.or_eq_true, Bool.and_eq_true, Nat.blt_eq, beq_iff_eq]

theorem versionLe_iff_not_lex (a b : Version) :
    versionLe a b = true ↔ ¬ VersionLexLt b a := by
  unfold versionLe
  rw [Bool.not_eq_true', ← Bool.not_eq_true, versionLt_iff_lex]

theorem lex_trichotomy (a b : Version) :
    VersionLexLt a b ∨ a = b ∨ VersionLexLt b a := by
  obtain ⟨a1, a2, a3⟩ := a
  obtain ⟨b1, b2, b3⟩ := b
  unfold VersionLexLt
  simp only [Version.mk.injEq]
  omega

theorem lex_asymm {a b : Version} (h : VersionLexLt a b) : ¬ VersionLexLt b a := by
  obtain ⟨a1, a2, a3⟩ := a
  obtain ⟨b1, b2, b3⟩ := b
  unfold VersionLexLt at h ⊢
  omega

theorem lex_trans {a b c : Version}
    (h1 : VersionLexLt a b) (h2 : VersionLexLt b c) : VersionLexLt a c := by
  obtain ⟨a1, a2, a3⟩ := a
  obtain ⟨b1, b2, b3⟩ := b
  obtain ⟨c1, c2, c3⟩ := c
  unfold VersionLexLt at h1 h2 ⊢
  omega

theorem lex_irrefl (a : Version) : ¬ VersionLexLt a a := by
  obtain ⟨a1, a2, a3⟩ := a
  unfold VersionLexLt
  omega

theorem versionLe_trans {a b c : Version}
    (h1 : versionLe a b = true) (h2 : versionLe b c = true) :
    versionLe a c = true := by
  rw [versionLe_iff_not_lex] at h1 h2 ⊢
  intro hca
  rcases lex_trichotomy a b with hab | rfl | hba
  · exact h2 (lex_trans hca hab)
  · exact h2 hca
  · exact h1 hba

theorem versionLe_refl (a : Version) : versionLe a a = true := by
  rw [versionLe_iff_not_lex]
  exact lex_irrefl a

/-- Modelled from the spec: result of a bisection run — the boundary
version found, `Unresolvable` (the ceiling itself fails, or no
candidates), or `BisectionInconsistent` citing the two conflicting
(version, outcome) pairs. -/
inductive BisectResult where
  | found (v : Version)
  | unresolvable
  | inconsistent (older newer : Version × Bool)
deriving DecidableEq

/-- Modelled from the spec: a Build Oracle outcome for one version is
`true` for `Success` and `false` for `Failure` (the combined
build-then-test result; captured logs are not modelled). -/
def OracleFun := Version → Bool

/-- Modelled from the spec: monotonic compatibility — if a version
passes, every newer version (in the tested range) passes. -/
def OracleMonotone (oracle : Version → Bool) : Prop :=
  ∀ u v, versionLe u v = true → oracle u = true → oracle v = true

/-- Modelled from the spec: the monotonicity check run on every oracle
outcome — if a newer version fails after an older one already
succeeded, the bisection must abort, citing both conflicting pairs. -/
def checkOutcome (hist : List (Version × Bool)) (v : Version) (o : Bool) :
    Option ((Version × Bool) × (Version × Bool)) :=
  if o then none
  else
    match hist.find? (fun p => p.2 && versionLt p.1 v) with
    | some p => some (p, (v, false))
    | none => none

/-- Default version used for out-of-range candidate indexing (never
reached on well-formed calls). -/
def vdefault : Version := ⟨0, 0, 0⟩

/-- Candidate version at index `i`. -/
def getV (cands : List Version) (i : Nat) : Version :=
  cands.getD i vdefault

/-- Last element of a candidate list (`vdefault` on the empty list). -/
def lastV : List Version → Version
  | [] => vdefault
  | [a] => a
  | _ :: b :: rest => lastV (b :: rest)

/-- Modelled from the spec: the narrowing loop of the Bisector.
Invariant on entry: the candidate at `lo` failed and the candidate at
`hi` succeeded. Each iteration probes the midpoint, validates the
outcome against the recorded history, and narrows the range; the
returned list is the full record of oracle calls made. -/
def bisectLoop (cands : List Version) (oracle : Version → Bool) :
    Nat → List (Version × Bool) → Nat → Nat → BisectResult × List (Version × Bool)
  | 0, hist, _, _ => (.unresolvable, hist)
  | fuel + 1, hist, lo, hi =>
    if hi ≤ lo + 1 then (.found (getV cands hi), hist)
    else
      let mid := (lo + hi) / 2
      let v := getV cands mid
      let o := oracle v
      match checkOutcome hist v o with
      | some conflict => (.inconsistent conflict.1 conflict.2, hist ++ [(v, o)])
      | none =>
        if o then bisectLoop cands oracle fuel (hist ++ [(v, o)]) lo mid
        else bisectLoop cands oracle fuel (hist ++ [(v, o)]) mid hi

/-- Modelled from the spec: the Bisector. `cands` is the ordered
candidate list bounded by the floor (head) and the ceiling (last).
The floor is probed first: if it already succeeds it is reported
immediately with no further calls. If the ceiling fails, the run is
`Unresolvable`. Otherwise binary search narrows the range to the
boundary version. Also returns the record of oracle calls made. -/
def bisectRun (cands : List Version) (oracle : Version → Bool) :
    BisectResult × List (Version × Bool) :=
  match cands with
  | [] => (.unresolvable, [])
  | c :: cs =>
    if oracle c then (.found c, [(c, true)])
    else
      let ceiling := lastV (c :: cs)
      if cs.isEmpty then (.unresolvable, [(c, false)])
      else if oracle ceiling then
        bisectLoop (c :: cs) oracle (c :: cs).length
          [(c, false), (ceiling, true)] 0 cs.length
      else (.unresolvable, [(c, false), (ceiling, false)])

/-- Pairwise-adjacent sortedness of the candidate list (ascending). -/
def sortedB : List Version → Bool
  | [] => true
  | [_] => true
  | a :: b :: rest => versionLe a b && sortedB (b :: rest)

/-- Modelled from the spec: `PackageManifest` — the persisted record of
`minSupportedVersion` together with the dependency list, each entry a
(name, requirement string) pair. -/
structure Manifest where
  minSupportedVersion : Version
  deps : List (String × String)
deriving DecidableEq

/-- Modelled from the spec: `TransitionRequest`. -/
structure TransitionRequest where
  requestedVersion : Option Version
  allowDowngrade : Bool
  useBisection : Bool
deriving DecidableEq

/-- Whether `s` starts with `pre`, computed on the character lists. -/
def strStartsWith (s pre : String) : Bool :=
  pre.data.isPrefixOf s.data

/-- Modelled from the spec: the Manifest Updater's content transform on
a confirmed transition — rewrite `minSupportedVersion` and
resynchronize every internal (tool-named) dependency requirement
string to a caret pin on the tool's own package version. -/
def updateManifest (m : Manifest) (v : Version) (toolVersion : String) : Manifest :=
  { minSupportedVersion := v
    deps := m.deps.map fun p =>
      if strStartsWith p.1 "dynlint" then (p.1, "^" ++ toolVersion) else p }

/-- Result of one CLI `upgrade` invocation: exit code, stderr text, and
the manifest as left on disk. -/
structure CliOutcome where
  exitCode : Nat
  stderrText : String
  manifest : Manifest
deriving DecidableEq

/-- Substring test on character lists. -/
def hasSubList (pat : List Char) : List Char → Bool
  | [] => pat.isEmpty
  | c :: rest => pat.isPrefixOf (c :: rest) || hasSubList pat rest

/-- Substring test on strings, used to state what stderr contains. -/
def strContainsSub (s pat : String) : Bool :=
  hasSubList pat.data s.data

/-- Modelled from the spec: the `upgrade` operation. The Transition
Guard refuses an unapproved downgrade with a non-zero exit and a
"Refusing to downgrade toolchain" message, leaving the manifest
unchanged; an approved explicit version is verified once by the Build
Oracle and committed by the Manifest Updater; with no explicit version
and bisection enabled, the Bisector's result is committed. -/
def upgrade (m : Manifest) (req : TransitionRequest)
    (oracle : Version → Bool) (cands : List Version) (toolVersion : String) :
    CliOutcome :=
  match req.requestedVersion with
  | some v =>
    if isDowngrade v m.minSupportedVersion && !req.allowDowngrade then
      { exitCode := 1
        stderrText := "Error: Refusing to downgrade toolchain"
        manifest := m }
    else if oracle v then
      { exitCode := 0, stderrText := "", manifest := updateManifest m v toolVersion }
    else
      { exitCode := 1, stderrText := "Error: build or test failed", manifest := m }
  | none =>
    if req.useBisection then
      match (bisectRun cands oracle).1 with
      | .found v =>
          { exitCode := 0, stderrText := "", manifest := updateManifest m v toolVersion }
      | .unresolvable =>
          { exitCode := 1, stderrText := "Error: bisection unresolvable", manifest := m }
      | .inconsistent _ _ =>
          { exitCode := 1, stderrText := "Error: bisection inconsistent", manifest := m }
    else
      { exitCode := 0, stderrText := "", manifest := m }

/-- Modelled from the spec: the check performed by the tests'
`check_dynlint_dependencies` — every dependency whose name starts with
the tool prefix must be pinned to exactly caret plus the tool's own
package version. -/
def checkDynlintDependencies (m : Manifest) (toolVersion : String) : Bool :=
  m.deps.all fun p => !strStartsWith p.1 "dynlint" || p.2 == "^" ++ toolVersion

/-- Modelled from the spec: the manifest of a package freshly generated
by the `new` command — the dynlint-template, whose dynlint dependencies
are pinned to the generating tool's own package version. -/
def newPackageManifest (toolVersion : String) (msrv : Version) : Manifest :=
  { minSupportedVersion := msrv
    deps :=
      [ ("dynlint-linting", "^" ++ toolVersion)
      , ("dynlint-testing", "^" ++ toolVersion)
      , ("clippy_utils", "git-revision") ] }

/-- Modelled from the spec: outcome of one subprocess execution,
including abnormal termination of the subprocess. -/
inductive SubOutcome where
  | success
  | failed
  | abnormal
deriving DecidableEq

/-- Environment lookup in an ambient variable map. -/
def lookupEnv (e : List (String × String)) (k : String) : Option String :=
  (e.find? fun p => p.1 == k).map fun p => p.2

/-- Modelled from the spec: clearing the ambient environment except for
the explicit allow-list. -/
def restrictEnv (allowList : List String) (e : List (String × String)) :
    List (String × String) :=
  e.filter fun p => allowList.contains p.1

/-- Modelled from the spec: the scoped sanitized environment around a
Build Oracle subprocess call — capture the ambient variables, clear all
but the allow-list, run the subprocess on the cleared environment, and
restore the captured ambient state on every exit path. Returns the
subprocess outcome and the ambient environment after the call. -/
def sanitizedRun (allowList : List String) (ambient : List (String × String))
    (subproc : List (String × String) → SubOutcome) :
    SubOutcome × List (String × String) :=
  let captured := ambient
  let cleared := restrictEnv allowList ambient
  let out := subproc cleared
  (out, captured)

/-- Modelled from the spec: on-disk state seen by the Manifest Updater —
the manifest file's contents plus an optional temporary file. -/
structure DiskState where
  manifestContents : Manifest
  tempContents : Option Manifest
deriving DecidableEq

/-- Modelled from the spec: the two steps of write-to-temporary-then-replace. -/
inductive WriteStep where
  | writeTemp
  | renameTemp
deriving DecidableEq

/-- Effect of one write step on disk; the rename is the atomic
replacement primitive. -/
def applyStep (newM : Manifest) (d : DiskState) : WriteStep → DiskState
  | .writeTemp => { d with tempContents := some newM }
  | .renameTemp =>
    match d.tempContents with
    | some t => { manifestContents := t, tempContents := none }
    | none => d

/-- The manifest write protocol: write the temporary, then rename it
over the manifest. -/
def writeSeq : List WriteStep :=
  [.writeTemp, .renameTemp]

/-- Run a sequence of write steps against the disk. -/
def runSteps (newM : Manifest) (d : DiskState) (steps : List WriteStep) : DiskState :=
  steps.foldl (applyStep newM) d

/-- Modelled from the spec: `ManifestWriteError`. -/
inductive ManifestWriteError where
  | interrupted
deriving DecidableEq

/-- Modelled from the spec: one attempted manifest write.
`failAfter = none` is the uninterrupted run of the full protocol;
`failAfter = some k` is an interruption after `k` completed steps,
which yields `ManifestWriteError` and leaves on disk exactly the
prefix of the protocol that ran. -/
def attemptWrite (newM : Manifest) (d : DiskState) (failAfter : Option Nat) :
    Option ManifestWriteError × DiskState :=
  match failAfter with
  | none => (none, runSteps newM d writeSeq)
  | some k => (some .interrupted, runSteps newM d (writeSeq.take k))

/-- Decimal digit character test. -/
def isDigitChar (c : Char) : Bool :=
  c == '0' || c == '1' || c == '2' || c == '3' || c == '4' ||
    c == '5' || c == '6' || c == '7' || c == '8' || c == '9'

/-- Value of a decimal digit character. -/
def charToDigit (c : Char) : Nat :=
  if c == '0' then 0
  else if c == '1' then 1
  else if c == '2' then 2
  else if c == '3' then 3
  else if c == '4' then 4
  else if c == '5' then 5
  else if c == '6' then 6
  else if c == '7' then 7
  else if c == '8' then 8
  else 9

/-- Character of a decimal digit value. -/
def digitToChar (d : Nat) : Char :=
  if d == 0 then '0'
  else if d == 1 then '1'
  else if d == 2 then '2'
  else if d == 3 then '3'
  else if d == 4 then '4'
  else if d == 5 then '5'
  else if d == 6 then '6'
  else if d == 7 then '7'
  else if d == 8 then '8'
  else '9'

/-- Modelled from the spec: a strict non-negative integer component of
a version string — nonempty, all decimal digits, no leading zero. -/
def isNumeralChars (l : List Char) : Bool :=
  !l.isEmpty && l.all isDigitChar && (l == ['0'] || !(l.head? == some '0'))

/-- Numeric value of a digit string (most significant digit first). -/
def numeralToNat (l : List Char) : Nat :=
  Nat.ofDigits 10 (l.reverse.map charToDigit)

/-- Canonical digit string of a natural number. -/
def natToNumeral (n : Nat) : List Char :=
  if n = 0 then ['0'] else ((Nat.digits 10 n).map digitToChar).reverse

/-- Split a character list at every dot. -/
def splitDots : List Char → List (List Char)
  | [] => [[]]
  | c :: rest =>
    if c = '.' then [] :: splitDots rest
    else
      match splitDots rest with
      | [] => [[c]]
      | h :: t => (c :: h) :: t

/-- Rejoin the parts produced by `splitDots`, putting a dot between
adjacent parts. -/
def joinDots : List (List Char) → List Char
  | [] => []
  | [p] => p
  | p :: q :: rest => p ++ '.' :: joinDots (q :: rest)

/-- Modelled from the spec: `ParseError` for malformed version strings. -/
inductive ParseErr where
  | malformed
deriving DecidableEq

/-- Modelled from the spec: `parse` — succeeds exactly on strings made
of three strict non-negative integer components separated by dots. -/
def parseVersion (s : String) : Except ParseErr Version :=
  match splitDots s.data with
  | [a, b, c] =>
    if isNumeralChars a && isNumeralChars b && isNumeralChars c then
      .ok ⟨numeralToNat a, numeralToNat b, numeralToNat c⟩
    else .error .malformed
  | _ => .error .malformed

/-- Modelled from the spec: `format` back to the strict `N.N.N` form. -/
def formatVersion (v : Version) : String :=
  ⟨natToNumeral v.major ++ '.' :: natToNumeral v.minor ++ '.' :: natToNumeral v.patch⟩

/-- The specification's version-string form, stated independently of
the parser: exactly three non-negative integer components separated by
dots. -/
def ValidVersionForm (s : String) : Prop :=
  ∃ a b c : List Char,
    s.data = a ++ '.' :: (b ++ '.' :: c) ∧
      isNumeralChars a = true ∧ isNumeralChars b = true ∧ isNumeralChars c = true

/-- The concrete candidate list of the spec's bisection example. -/
def candidates165 : List Version :=
  [⟨1, 60, 0⟩, ⟨1, 61, 0⟩, ⟨1, 62, 0⟩, ⟨1, 63, 0⟩, ⟨1, 64, 0⟩, ⟨1, 65, 0⟩]

/-- The concrete oracle of the spec's bisection example: a version
succeeds exactly when it is at least 1.63.0. -/
def oracleGe163 : Version → Bool :=
  fun v => versionLe ⟨1, 63, 0⟩ v

/-- C9: `isDowngrade(v, current)` is true exactly when `v` is below
`current` in the lexicographic (major, minor, patch) order; in
particular it is false when the two versions are equal. -/
theorem isDowngrade_iff_lex :
    ∀ v current : Version,
      (isDowngrade v current = true ↔ VersionLexLt v current) ∧
        (v = current → isDowngrade v current = false) := by
  intro v c
  refine ⟨versionLt_iff_lex v c, ?_⟩
  rintro rfl
  have h := lex_irrefl v
  rw [← versionLt_iff_lex] at h
  exact Bool.not_eq_true _ |>.mp h

theorem isDowngrade_iff_lex_witness :
    (isDowngrade ⟨1, 64, 0⟩ ⟨1, 65, 0⟩ = true ↔
        VersionLexLt ⟨1, 64, 0⟩ ⟨1, 65, 0⟩) ∧
      ((⟨1, 64, 0⟩ : Version) = ⟨1, 65, 0⟩ →
        isDowngrade ⟨1, 64, 0⟩ ⟨1, 65, 0⟩ = false) :=
  isDowngrade_iff_lex ⟨1, 64, 0⟩ ⟨1, 65, 0⟩

/-- C1: an explicit request strictly below the manifest's
`minSupportedVersion` without the downgrade override makes `upgrade`
fail: non-zero exit code, a stderr message containing "Refusing to
downgrade toolchain", and an unchanged manifest. -/
theorem upgrade_refuses_downgrade :
    ∀ (m : Manifest) (req : TransitionRequest) (oracle : Version → Bool)
      (cands : List Version) (toolVersion : String) (v : Version),
      req.requestedVersion = some v →
      VersionLexLt v m.minSupportedVersion →
      req.allowDowngrade = false →
      (upgrade m req oracle cands toolVersion).exitCode ≠ 0 ∧
        strContainsSub (upgrade m req oracle cands toolVersion).stderrText
          "Refusing to downgrade toolchain" = true ∧
        (upgrade m req oracle cands toolVersion).manifest = m := by
  intro m req oracle cands tv v hreq hlt had
  have hd : isDowngrade v m.minSupportedVersion = true := by
    have := (versionLt_iff_lex v m.minSupportedVersion).mpr hlt
    exact this
  have hu : upgrade m req oracle cands tv =
      { exitCode := 1
        stderrText := "Error: Refusing to downgrade toolchain"
        manifest := m } := by
    simp [upgrade, hreq, hd, had]
  rw [hu]
  refine ⟨?_, ?_, rfl⟩
  · show (1 : Nat) ≠ 0
    decide
  · show strContainsSub "Error: Refusing to downgrade toolchain"
      "Refusing to downgrade toolchain" = true
    decide

theorem upgrade_refuses_downgrade_witness :
    ({ requestedVersion := some ⟨1, 64, 0⟩, allowDowngrade := false,
       useBisection := false } : TransitionRequest).requestedVersion =
        some ⟨1, 64, 0⟩ ∧
      VersionLexLt ⟨1, 64, 0⟩
        ({ minSupportedVersion := ⟨1, 65, 0⟩, deps := [] } : Manifest).minSupportedVersion ∧
      (upgrade { minSupportedVersion := ⟨1, 65, 0⟩, deps := [] }
            { requestedVersion := some ⟨1, 64, 0⟩, allowDowngrade := false,
              useBisection := false }
            (fun _ => true) [] "3.5.1").exitCode ≠ 0 := by
  refine ⟨rfl, by decide, ?_⟩
  exact (upgrade_refuses_downgrade
    { minSupportedVersion := ⟨1, 65, 0⟩, deps := [] }
    { requestedVersion := some ⟨1, 64, 0⟩, allowDowngrade := false,
      useBisection := false }
    (fun _ => true) [] "3.5.1" ⟨1, 64, 0⟩ rfl (by decide) rfl).1

/-- C3: a downgrade request carrying the override, once verified
successfully by the oracle, is committed — `minSupportedVersion`
becomes the requested version and every dependency whose name starts
with the tool prefix is pinned to caret plus the tool's package
version. -/
theorem upgrade_commits_approved_downgrade :
    ∀ (m : Manifest) (req : TransitionRequest) (oracle : Version → Bool)
      (cands : List Version) (toolVersion : String) (v : Version),
      req.requestedVersion = some v →
      req.allowDowngrade = true →
      VersionLexLt v m.minSupportedVersion →
      oracle v = true →
      (upgrade m req oracle cands toolVersion).exitCode = 0 ∧
        (upgrade m req oracle cands toolVersion).manifest.minSupportedVersion = v ∧
        ∀ d ∈ (upgrade m req oracle cands toolVersion).manifest.deps,
          strStartsWith d.1 "dynlint" = true → d.2 = "^" ++ toolVersion := by
  intro m req oracle cands tv v hreq had _hlt hora
  have hu : upgrade m req oracle cands tv =
      { exitCode := 0, stderrText := "", manifest := updateManifest m v tv } := by
    simp [upgrade, hreq, had, hora]
  rw [hu]
  refine ⟨rfl, rfl, ?_⟩
  intro d hd hstart
  simp only [updateManifest, List.mem_map] at hd
  obtain ⟨p, _hp, rfl⟩ := hd
  by_cases hp1 : strStartsWith p.1 "dynlint"
  · simp [hp1]
  · rw [if_neg (by simp [hp1])] at hstart
    exact absurd hstart (by simp [hp1])

theorem upgrade_commits_approved_downgrade_witness :
    (upgrade
        { minSupportedVersion := ⟨1, 65, 0⟩,
          deps := [("dynlint-linting", "^3.0.0"), ("clippy_utils", "rev")] }
        { requestedVersion := some ⟨1, 64, 0⟩, allowDowngrade := true,
          useBisection := false }
        (fun _ => true) [] "3.5.1").manifest.minSupportedVersion = ⟨1, 64, 0⟩ :=
  (upgrade_commits_approved_downgrade
    { minSupportedVersion := ⟨1, 65, 0⟩,
      deps := [("dynlint-linting", "^3.0.0"), ("clippy_utils", "rev")] }
    { requestedVersion := some ⟨1, 64, 0⟩, allowDowngrade := true,
      useBisection := false }
    (fun _ => true) [] "3.5.1" ⟨1, 64, 0⟩ rfl rfl (by decide) rfl).2.1

/-- C5: around a Build Oracle subprocess call, a non-allow-listed
variable that is set in the ambient environment is absent from the
environment handed to the subprocess, and the ambient environment
after the call — whatever the subprocess outcome, including abnormal
termination — is the original one. -/
theorem sanitizedRun_clears_and_restores :
    ∀ (allowList : List String) (ambient : List (String × String))
      (subproc : List (String × String) → SubOutcome) (v val : String),
      allowList.contains v = false →
      lookupEnv ambient v = some val →
      lookupEnv (restrictEnv allowList ambient) v = none ∧
        (sanitizedRun allowList ambient subproc).2 = ambient := by
  intro allowList ambient subproc v val hv _hset
  refine ⟨?_, rfl⟩
  have hnone : (restrictEnv allowList ambient).find? (fun p => p.1 == v) = none := by
    rw [List.find?_eq_none]
    intro p hp
    have hmem := List.mem_filter.mp hp
    intro hpv
    have hp1 : p.1 = v := by simpa using hpv
    rw [hp1] at hmem
    rw [hv] at hmem
    exact Bool.false_ne_true hmem.2
  simp [lookupEnv, hnone]

theorem sanitizedRun_clears_and_restores_witness :
    (["PATH"] : List String).contains "RUSTFLAGS" = false ∧
      lookupEnv [("RUSTFLAGS", "-Zextra"), ("PATH", "p")] "RUSTFLAGS" =
        some "-Zextra" ∧
      lookupEnv (restrictEnv ["PATH"] [("RUSTFLAGS", "-Zextra"), ("PATH", "p")])
          "RUSTFLAGS" = none ∧
      (sanitizedRun ["PATH"] [("RUSTFLAGS", "-Zextra"), ("PATH", "p")]
          (fun _ => SubOutcome.abnormal)).2 =
        [("RUSTFLAGS", "-Zextra"), ("PATH", "p")] := by
  refine ⟨by decide, by decide, ?_⟩
  exact sanitizedRun_clears_and_restores ["PATH"]
    [("RUSTFLAGS", "-Zextra"), ("PATH", "p")] (fun _ => SubOutcome.abnormal)
    "RUSTFLAGS" "-Zextra" (by decide) (by decide)

/-- C6: the manifest write is write-temporary-then-rename — any
interruption strictly before the protocol completes yields
`ManifestWriteError` and leaves the manifest file with its prior
contents, while the uninterrupted protocol installs the new
contents. -/
theorem atomic_manifest_write :
    ∀ (newM : Manifest) (d : DiskState) (k : Nat),
      (k < writeSeq.length →
        (attemptWrite newM d (some k)).1 = some ManifestWriteError.interrupted ∧
          (attemptWrite newM d (some k)).2.manifestContents = d.manifestContents) ∧
        (attemptWrite newM d none).1 = none ∧
        (attemptWrite newM d none).2.manifestContents = newM := by
  intro newM d k
  refine ⟨?_, rfl, by simp [attemptWrite, runSteps, writeSeq, applyStep]⟩
  intro hk
  refine ⟨rfl, ?_⟩
  have hk2 : k = 0 ∨ k = 1 := by
    simp only [writeSeq, List.length] at hk
    omega
  rcases hk2 with rfl | rfl
  · simp [attemptWrite, runSteps, writeSeq]
  · simp [attemptWrite, runSteps, writeSeq, applyStep]

theorem atomic_manifest_write_witness :
    (1 < writeSeq.length →
      (attemptWrite { minSupportedVersion := ⟨1, 64, 0⟩, deps := [] }
          { manifestContents := { minSupportedVersion := ⟨1, 65, 0⟩, deps := [] },
            tempContents := none } (some 1)).1 =
          some ManifestWriteError.interrupted ∧
        (attemptWrite { minSupportedVersion := ⟨1, 64, 0⟩, deps := [] }
            { manifestContents := { minSupportedVersion := ⟨1, 65, 0⟩, deps := [] },
              tempContents := none } (some 1)).2.manifestContents =
          { minSupportedVersion := ⟨1, 65, 0⟩, deps := [] }) ∧
      (attemptWrite { minSupportedVersion := ⟨1, 64, 0⟩, deps := [] }
          { manifestContents := { minSupportedVersion := ⟨1, 65, 0⟩, deps := [] },
            tempContents := none } none).1 = none ∧
      (attemptWrite { minSupportedVersion := ⟨1, 64, 0⟩, deps := [] }
          { manifestContents := { minSupportedVersion := ⟨1, 65, 0⟩, deps := [] },
            tempContents := none } none).2.manifestContents =
        { minSupportedVersion := ⟨1, 64, 0⟩, deps := [] } :=
  atomic_manifest_write { minSupportedVersion := ⟨1, 64, 0⟩, deps := [] }
    { manifestContents := { minSupportedVersion := ⟨1, 65, 0⟩, deps := [] },
      tempContents := none } 1

/-- C10: a freshly generated package already satisfies the manifest
invariant — every dependency whose name starts with "dynlint" is
pinned to caret plus the generating tool's own package version. -/
theorem new_package_dependency_invariant :
    ∀ (toolVersion : String) (msrv : Version),
      checkDynlintDependencies (newPackageManifest toolVersion msrv) toolVersion =
        true := by
  intro tv msrv
  have h1 : strStartsWith "clippy_utils" "dynlint" = false := by decide
  have h2 : strStartsWith "dynlint-linting" "dynlint" = true := by decide
  have h3 : strStartsWith "dynlint-testing" "dynlint" = true := by decide
  simp [checkDynlintDependencies, newPackageManifest, h1, h2, h3]

/-- C2: on the candidate list [1.60 … 1.65] with any oracle that
succeeds exactly on versions at least 1.63, the Bisector returns
1.63.0 and makes at most four oracle calls. -/
theorem bisect_example_returns_163 :
    ∀ oracle : Version → Bool,
      (∀ v, oracle v = true ↔ ¬ VersionLexLt v ⟨1, 63, 0⟩) →
      (bisectRun candidates165 oracle).1 = .found ⟨1, 63, 0⟩ ∧
        (bisectRun candidates165 oracle).2.length ≤ 4 := by
  intro oracle h
  have ho : oracle = oracleGe163 := by
    funext v
    by_cases hlex : VersionLexLt v ⟨1, 63, 0⟩
    · have h1 : oracle v = false :=
        Bool.eq_false_iff.mpr fun hh => (h v).mp hh hlex
      have h2 : oracleGe163 v = false :=
        Bool.eq_false_iff.mpr fun hh =>
          (versionLe_iff_not_lex ⟨1, 63, 0⟩ v).mp hh hlex
      rw [h1, h2]
    · have h1 : oracle v = true := (h v).mpr hlex
      have h2 : oracleGe163 v = true :=
        (versionLe_iff_not_lex ⟨1, 63, 0⟩ v).mpr hlex
      rw [h1, h2]
  rw [ho]
  exact ⟨by decide, by decide⟩

theorem bisect_example_returns_163_witness :
    (bisectRun candidates165 oracleGe163).1 = .found ⟨1, 63, 0⟩ ∧
      (bisectRun candidates165 oracleGe163).2.length ≤ 4 :=
  bisect_example_returns_163 oracleGe163
    (fun v => versionLe_iff_not_lex ⟨1, 63, 0⟩ v)

/-- Head-to-last comparison along a sorted candidate list. -/
theorem sortedB_head_le_lastV :
    ∀ (c : Version) (cs : List Version), sortedB (c :: cs) = true →
      versionLe c (lastV (c :: cs)) = true := by
  intro c cs
  induction cs generalizing c with
  | nil => intro _; exact versionLe_refl c
  | cons d ds ih =>
    intro hsort
    have hsplit : versionLe c d = true ∧ sortedB (d :: ds) = true := by
      have := hsort
      unfold sortedB at this
      exact Bool.and_eq_true _ _ |>.mp this
    have h3 := ih d hsplit.2
    show versionLe c (lastV (d :: ds)) = true
    exact versionLe_trans hsplit.1 h3

/-- C7: with a monotone oracle over a sorted candidate range, a failing
ceiling makes the Bisector report `Unresolvable`, and a succeeding
floor is reported immediately after that single oracle call. -/
theorem bisect_endpoint_behavior :
    ∀ (c : Version) (cs : List Version) (oracle : Version → Bool),
      sortedB (c :: cs) = true →
      OracleMonotone oracle →
      (oracle (lastV (c :: cs)) = false →
          (bisectRun (c :: cs) oracle).1 = .unresolvable) ∧
        (oracle c = true →
          bisectRun (c :: cs) oracle = (.found c, [(c, true)])) := by
  intro c cs oracle hsort hmono
  constructor
  · intro hceil
    have hfloor : oracle c = false := by
      cases hoc : oracle c
      · rfl
      · have hle := sortedB_head_le_lastV c cs hsort
        have := hmono _ _ hle hoc
        rw [this] at hceil
        exact absurd hceil (by decide)
    cases cs with
    | nil =>
      simp [bisectRun, hfloor, lastV] at hceil ⊢
    | cons d ds =>
      simp [bisectRun, hfloor, hceil]
  · intro hfloor
    simp [bisectRun, hfloor]

theorem bisect_endpoint_behavior_witness :
    (bisectRun [⟨1, 60, 0⟩, ⟨1, 63, 0⟩, ⟨1, 65, 0⟩] (fun _ => false)).1 =
        .unresolvable ∧
      bisectRun [⟨1, 60, 0⟩, ⟨1, 63, 0⟩, ⟨1, 65, 0⟩] (fun _ => true) =
        (.found ⟨1, 60, 0⟩, [(⟨1, 60, 0⟩, true)]) := by
  constructor
  · exact (bisect_endpoint_behavior ⟨1, 60, 0⟩ [⟨1, 63, 0⟩, ⟨1, 65, 0⟩]
      (fun _ => false) (by decide) (fun _ _ _ h => h)).1 rfl
  · exact (bisect_endpoint_behavior ⟨1, 60, 0⟩ [⟨1, 63, 0⟩, ⟨1, 65, 0⟩]
      (fun _ => true) (by decide) (fun _ _ _ h => h)).2 rfl

/-- C4: whenever the recorded call history already holds a `Success`
for an older version and the current oracle call reports `Failure` for
a strictly newer version, the monotonicity check fires with both
conflicting (version, outcome) pairs, and the Bisector's narrowing
loop aborts right there with `BisectionInconsistent` — the history
grows by exactly that one call, so neither call is retried. -/
theorem bisect_inconsistency_aborts :
    ∀ (hist : List (Version × Bool)) (u v : Version),
      (u, true) ∈ hist →
      VersionLexLt u v →
      (∃ p, checkOutcome hist v false = some p ∧
          p.2 = (v, false) ∧ p.1.2 = true ∧ (p.1.1, p.1.2) ∈ hist ∧
          VersionLexLt p.1.1 v) ∧
        ∀ (cands : List Version) (oracle : Version → Bool) (fuel lo hi : Nat),
          lo + 1 < hi →
          fuel ≠ 0 →
          getV cands ((lo + hi) / 2) = v →
          oracle v = false →
          ∃ p, checkOutcome hist v false = some p ∧
            bisectLoop cands oracle fuel hist lo hi =
              (.inconsistent p.1 p.2, hist ++ [(v, false)]) := by
  intro hist u v hu hlex
  have hfind : ∃ w, hist.find? (fun q => q.2 && versionLt q.1 v) = some w := by
    rw [← Option.isSome_iff_exists, List.find?_isSome]
    refine ⟨(u, true), hu, ?_⟩
    simp only [Bool.true_and]
    exact (versionLt_iff_lex u v).mpr hlex
  obtain ⟨w, hw⟩ := hfind
  have hmem : w ∈ hist :=
    @List.mem_of_find?_eq_some _ (fun q => q.2 && versionLt q.1 v) w hist hw
  have hpred : (w.2 && versionLt w.1 v) = true :=
    @List.find?_some _ (fun q => q.2 && versionLt q.1 v) w hist hw
  have hw2 : w.2 = true := (Bool.and_eq_true _ _ |>.mp hpred).1
  have hw1v : VersionLexLt w.1 v :=
    (versionLt_iff_lex w.1 v).mp (Bool.and_eq_true _ _ |>.mp hpred).2
  have hcheck : checkOutcome hist v false = some (w, (v, false)) := by
    unfold checkOutcome
    rw [if_neg (by decide)]
    rw [hw]
  constructor
  · refine ⟨(w, (v, false)), hcheck, rfl, hw2, ?_, hw1v⟩
    have hsplitw : (w.1, w.2) = w := rfl
    rw [hsplitw]
    exact hmem
  · intro cands oracle fuel lo hi hlh hfuel hmid hora
    refine ⟨(w, (v, false)), hcheck, ?_⟩
    obtain ⟨f, rfl⟩ := Nat.exists_eq_succ_of_ne_zero hfuel
    show bisectLoop cands oracle (f + 1) hist lo hi = _
    unfold bisectLoop
    rw [if_neg (by omega)]
    simp only [hmid, hora, hcheck]

theorem bisect_inconsistency_aborts_witness :
    bisectLoop candidates165 (fun _ => false) 3
        [((⟨1, 61, 0⟩ : Version), true)] 3 5 =
      (.inconsistent (⟨1, 61, 0⟩, true) (⟨1, 64, 0⟩, false),
        [(⟨1, 61, 0⟩, true), (⟨1, 64, 0⟩, false)]) := by
  obtain ⟨p, hcheck, hres⟩ :=
    (bisect_inconsistency_aborts [((⟨1, 61, 0⟩ : Version), true)]
        ⟨1, 61, 0⟩ ⟨1, 64, 0⟩ (by simp) (by decide)).2
      candidates165 (fun _ => false) 3 3 5 (by omega) (by decide) (by decide) rfl
  have hp : p = ((⟨1, 61, 0⟩, true), (⟨1, 64, 0⟩, false)) := by
    have hc : checkOutcome [((⟨1, 61, 0⟩ : Version), true)] ⟨1, 64, 0⟩ false =
        some ((⟨1, 61, 0⟩, true), (⟨1, 64, 0⟩, false)) := by decide
    rw [hc] at hcheck
    exact (Option.some.inj hcheck).symm
  rw [hp] at hres
  exact hres

/-- Case list for decimal digit characters. -/
theorem digitChar_cases {c : Char} (hc : isDigitChar c = true) :
    c = '0' ∨ c = '1' ∨ c = '2' ∨ c = '3' ∨ c = '4' ∨
      c = '5' ∨ c = '6' ∨ c = '7' ∨ c = '8' ∨ c = '9' := by
  have h := hc
  simp [isDigitChar] at h
  tauto

theorem charToDigit_lt_ten {c : Char} (hc : isDigitChar c = true) :
    charToDigit c < 10 := by
  rcases digitChar_cases hc with
    rfl | rfl | rfl | rfl | rfl | rfl | rfl | rfl | rfl | rfl <;> decide

theorem digitToChar_charToDigit {c : Char} (hc : isDigitChar c = true) :
    digitToChar (charToDigit c) = c := by
  rcases digitChar_cases hc with
    rfl | rfl | rfl | rfl | rfl | rfl | rfl | rfl | rfl | rfl <;> decide

theorem digitChar_ne_dot {c : Char} (hc : isDigitChar c = true) : ¬ c = '.' := by
  rcases digitChar_cases hc with
    rfl | rfl | rfl | rfl | rfl | rfl | rfl | rfl | rfl | rfl <;> decide

theorem charToDigit_ne_zero {c : Char} (hc : isDigitChar c = true)
    (h0 : c ≠ '0') : charToDigit c ≠ 0 := by
  rcases digitChar_cases hc with
    rfl | rfl | rfl | rfl | rfl | rfl | rfl | rfl | rfl | rfl
  · exact absurd rfl h0
  all_goals decide

/-- Unpacking of the numeral-component predicate. -/
theorem numeral_destruct {l : List Char} (hl : isNumeralChars l = true) :
    l ≠ [] ∧ (∀ c ∈ l, isDigitChar c = true) ∧
      (l = ['0'] ∨ l.head? ≠ some '0') := by
  unfold isNumeralChars at hl
  simp only [Bool.and_eq_true, Bool.or_eq_true, Bool.not_eq_true',
    List.all_eq_true, beq_iff_eq] at hl
  obtain ⟨⟨hne, hall⟩, hz⟩ := hl
  refine ⟨?_, hall, ?_⟩
  · intro h
    subst h
    simp at hne
  · rcases hz with hz | hz
    · exact Or.inl hz
    · right
      intro h
      rw [h] at hz
      simp at hz

theorem numeral_no_dot {l : List Char} (hl : isNumeralChars l = true) :
    ∀ x ∈ l, ¬ x = '.' := by
  intro x hx
  exact digitChar_ne_dot ((numeral_destruct hl).2.1 x hx)

/-- Round trip on a single numeral component. -/
theorem natToNumeral_numeralToNat {l : List Char} (hl : isNumeralChars l = true) :
    natToNumeral (numeralToNat l) = l := by
  obtain ⟨hne, hall, hz⟩ := numeral_destruct hl
  rcases hz with hz | hz
  · subst hz
    have h0 : numeralToNat ['0'] = 0 := by
      unfold numeralToNat
      simp [charToDigit]
    rw [h0]
    rfl
  · obtain ⟨d, ds, rfl⟩ := List.exists_cons_of_ne_nil hne
    have hd : d ≠ '0' := by
      intro h
      apply hz
      rw [h]
      rfl
    have hlt : ∀ x ∈ (d :: ds).reverse.map charToDigit, x < 10 := by
      intro x hx
      rw [List.mem_map] at hx
      obtain ⟨c, hc, rfl⟩ := hx
      exact charToDigit_lt_ten (hall c (List.mem_reverse.mp hc))
    have hLne : (d :: ds).reverse.map charToDigit ≠ [] := by simp
    have hlast : ∀ h : (d :: ds).reverse.map charToDigit ≠ [],
        ((d :: ds).reverse.map charToDigit).getLast h ≠ 0 := by
      intro h
      have h1 : ((d :: ds).reverse.map charToDigit).getLast? =
          some (charToDigit d) := by
        rw [List.getLast?_map, List.getLast?_reverse]
        rfl
      have h2 := List.getLast?_eq_getLast ((d :: ds).reverse.map charToDigit) h
      rw [h1] at h2
      rw [← Option.some.inj h2]
      exact charToDigit_ne_zero (hall d (List.mem_cons_self d ds)) hd
    have hdig : Nat.digits 10 (Nat.ofDigits 10 ((d :: ds).reverse.map charToDigit)) =
        (d :: ds).reverse.map charToDigit :=
      Nat.digits_ofDigits 10 (by norm_num) _ hlt hlast
    have hn0 : Nat.ofDigits 10 ((d :: ds).reverse.map charToDigit) ≠ 0 := by
      intro hzero
      rw [hzero, Nat.digits_zero] at hdig
      exact hLne hdig.symm
    show natToNumeral (numeralToNat (d :: ds)) = d :: ds
    unfold numeralToNat natToNumeral
    rw [if_neg hn0, hdig, List.map_map]
    have hid : (d :: ds).reverse.map (digitToChar ∘ charToDigit) =
        (d :: ds).reverse := by
      rw [List.map_congr_left, List.map_id]
      intro a ha
      exact digitToChar_charToDigit (hall a (List.mem_reverse.mp ha))
    rw [hid, List.reverse_reverse]

theorem splitDots_ne_nil : ∀ l : List Char, splitDots l ≠ [] := by
  intro l
  cases l with
  | nil => simp [splitDots]
  | cons c rest =>
    unfold splitDots
    by_cases hc : c = '.'
    · simp [hc]
    · rw [if_neg hc]
      cases splitDots rest with
      | nil => simp
      | cons h t => simp

theorem joinDots_cons_cons (c : Char) (q : List Char) (t : List (List Char)) :
    joinDots ((c :: q) :: t) = c :: joinDots (q :: t) := by
  cases t <;> simp [joinDots]

theorem joinDots_splitDots : ∀ l : List Char, joinDots (splitDots l) = l := by
  intro l
  induction l with
  | nil => rfl
  | cons c rest ih =>
    obtain ⟨q, t, hqt⟩ := List.exists_cons_of_ne_nil (splitDots_ne_nil rest)
    by_cases hc : c = '.'
    · subst hc
      show joinDots (splitDots ('.' :: rest)) = '.' :: rest
      unfold splitDots
      rw [if_pos rfl, hqt]
      show joinDots ([] :: q :: t) = '.' :: rest
      have : joinDots ([] :: q :: t) = '.' :: joinDots (q :: t) := by
        simp [joinDots]
      rw [this, ← hqt, ih]
    · show joinDots (splitDots (c :: rest)) = c :: rest
      unfold splitDots
      rw [if_neg hc, hqt]
      show joinDots ((c :: q) :: t) = c :: rest
      rw [joinDots_cons_cons, ← hqt, ih]

theorem splitDots_append_dot :
    ∀ (a rest : List Char), (∀ x ∈ a, ¬ x = '.') →
      splitDots (a ++ '.' :: rest) = a :: splitDots rest := by
  intro a
  induction a with
  | nil =>
    intro rest _
    show splitDots ('.' :: rest) = [] :: splitDots rest
    simp [splitDots]
  | cons x xs ih =>
    intro rest hnd
    have hx : ¬ x = '.' := hnd x (List.mem_cons_self x xs)
    show splitDots (x :: (xs ++ '.' :: rest)) = (x :: xs) :: splitDots rest
    simp only [splitDots]
    rw [if_neg hx, ih rest fun y hy => hnd y (List.mem_cons_of_mem x hy)]

theorem splitDots_no_dot :
    ∀ l : List Char, (∀ x ∈ l, ¬ x = '.') → splitDots l = [l] := by
  intro l
  induction l with
  | nil => intro _; rfl
  | cons x xs ih =>
    intro hnd
    have hx : ¬ x = '.' := hnd x (List.mem_cons_self x xs)
    unfold splitDots
    rw [if_neg hx, ih fun y hy => hnd y (List.mem_cons_of_mem x hy)]

/-- C8: on every string of the strict `N.N.N` form, parsing yields a
version whose formatting returns the original string; on every other
string, parsing fails with `ParseError`. -/
theorem parse_format_roundtrip :
    ∀ s : String,
      (ValidVersionForm s →
          ∃ v, parseVersion s = .ok v ∧ formatVersion v = s) ∧
        (¬ ValidVersionForm s → parseVersion s = .error .malformed) := by
  intro s
  constructor
  · rintro ⟨a, b, c, hdata, ha, hb, hc⟩
    have hsplit : splitDots s.data = [a, b, c] := by
      rw [hdata, splitDots_append_dot a _ (numeral_no_dot ha),
        splitDots_append_dot b _ (numeral_no_dot hb),
        splitDots_no_dot c (numeral_no_dot hc)]
    refine ⟨⟨numeralToNat a, numeralToNat b, numeralToNat c⟩, ?_, ?_⟩
    · unfold parseVersion
      rw [hsplit]
      simp [ha, hb, hc]
    · unfold formatVersion
      cases s with
      | mk data =>
        have hdata' : data = a ++ '.' :: (b ++ '.' :: c) := hdata
        show String.mk (natToNumeral (numeralToNat a) ++
            '.' :: natToNumeral (numeralToNat b) ++
            '.' :: natToNumeral (numeralToNat c)) = String.mk data
        rw [natToNumeral_numeralToNat ha, natToNumeral_numeralToNat hb,
          natToNumeral_numeralToNat hc, hdata']
        simp [List.append_assoc]
  · intro hnot
    unfold parseVersion
    rcases hsp : splitDots s.data with _ | ⟨p, _ | ⟨q, _ | ⟨r, _ | _⟩⟩⟩
    · rfl
    · rfl
    · rfl
    · show (if (isNumeralChars p && isNumeralChars q && isNumeralChars r) = true
          then (Except.ok ⟨numeralToNat p, numeralToNat q, numeralToNat r⟩ :
            Except ParseErr Version)
          else Except.error ParseErr.malformed) = Except.error ParseErr.malformed
      by_cases hpq : isNumeralChars p = true ∧ isNumeralChars q = true ∧
        isNumeralChars r = true
      · exfalso
        apply hnot
        refine ⟨p, q, r, ?_, hpq.1, hpq.2.1, hpq.2.2⟩
        have hj := joinDots_splitDots s.data
        rw [hsp] at hj
        simp only [joinDots] at hj
        exact hj.symm
      · rw [if_neg ?_]
        intro hall
        apply hpq
        simp only [Bool.and_eq_true] at hall
        exact ⟨hall.1.1, hall.1.2, hall.2⟩
    · rfl

theorem parse_format_roundtrip_witness :
    ValidVersionForm "1.65.0" ∧
      ∃ v, parseVersion "1.65.0" = .ok v ∧ formatVersion v = "1.65.0" := by
  have hvf : ValidVersionForm "1.65.0" := by
    refine ⟨['1'], ['6', '5'], ['0'], ?_, by decide, by decide, by decide⟩
    decide
  exact ⟨hvf, (parse_format_roundtrip "1.65.0").1 hvf⟩



